import Mathlib

/-!
Verification development for the clawcash wallet core
(key derivation, mnemonic encoding, chain adapters, registry, orchestrator).

Strings that the code slices or encodes byte-wise (private keys, addresses,
messages, base64 output) are modelled as lists of character codes
(`Str := List Nat`); a mnemonic word is likewise a list of character codes
and a phrase is its list of words.  Asynchronous operations that can reject
are modelled with `Except String`; results of external backend calls
(RPC / block-explorer fetches) are passed in as explicit `Except` values.
-/

namespace ClawCash

/-- A character-code string: the byte-level view of a JS string. -/
abbrev Str := List Nat

/-! ## Fixed-width positional encoding

Shared arithmetic core: a natural number rendered as a fixed-length
big-endian digit list in a given base, and the inverse fold.  Used by the
BIP-39 model (11-bit word indices, 8-bit entropy bytes) and by base64. -/

/-- Fold a big-endian digit list back into the number it denotes. -/
def digitsToNatBE (base : Nat) (ds : List Nat) : Nat :=
  ds.foldl (fun a d => a * base + d) 0

/-- `natToDigitsBE base len n`: the `len` low-order base-`base` digits of
`n`, most significant first. -/
def natToDigitsBE (base : Nat) : Nat → Nat → List Nat
  | 0, _ => []
  | len + 1, n => natToDigitsBE base len (n / base) ++ [n % base]

/-! ## Seed module (src/src/core/mnemonic.ts)

The TypeScript functions delegate to the ethers BIP-39 implementation
(`Mnemonic.fromPhrase` / `Mnemonic.fromEntropy`), which is not part of
this repository, so the encoding itself is modelled from the spec:
entropy is a fixed-length byte buffer, the word sequence is a pure and
reversible function of the entropy obtained by appending a checksum and
cutting the result into 11-bit word indices, and validation recomputes
the checksum.  A word is a list of character codes; a phrase is the list
of its words.  The checksum function (`cs`, in reality the leading bits
of SHA-256) and the 2048-entry word list are parameters of the model. -/

/-- A mnemonic word, as a list of character codes. -/
abbrev Word := List Nat

/-- Modelled from the spec: a BIP-39 word list of 2048 words, together
with the word-to-index lookup the decoder uses. -/
structure Wordlist where
  words : Nat → Word
  inv : Word → Option Nat

/-- A well-formed word list: `inv` is the exact inverse of `words` on
indices below 2048.  The round-trip theorems assume this of their word
list. -/
def Wordlist.Good (W : Wordlist) : Prop :=
  (∀ i, i < 2048 → W.inv (W.words i) = some i) ∧
  (∀ w i, W.inv w = some i → W.words i = w ∧ i < 2048)

/-- Modelled from the spec: `fromEntropy` for 16-byte entropy.  The
128 entropy bits followed by the 4 checksum bits form a 132-bit number,
which is cut into 12 big-endian 11-bit word indices. -/
def entropyToMnemonic (W : Wordlist) (cs : List Nat → Nat) (entropy : List Nat) :
    List Word :=
  let n := digitsToNatBE 256 entropy * 16 + cs entropy % 16
  (natToDigitsBE 2048 12 n).map W.words

/-- Look up every word of a phrase in the word list; `none` as soon as
one word is unknown. -/
def wordIndices (W : Wordlist) : List Word → Option (List Nat)
  | [] => some []
  | w :: ws =>
    match W.inv w, wordIndices W ws with
    | some i, some is => some (i :: is)
    | _, _ => none

/-- Modelled from the spec: `toEntropy`.  Recovers the word indices,
reassembles the 132-bit number, splits off the 16 entropy bytes and
recomputes the checksum; any failure is reported as an error rather
than a result. -/
def mnemonicToEntropy (W : Wordlist) (cs : List Nat → Nat) (phrase : List Word) :
    Except String (List Nat) :=
  if phrase.length = 12 then
    match wordIndices W phrase with
    | some idxs =>
      let n := digitsToNatBE 2048 idxs
      let entropy := natToDigitsBE 256 16 (n / 16)
      if cs entropy % 16 = n % 16 then .ok entropy
      else .error "invalid mnemonic checksum"
    | none => .error "unknown mnemonic word"
  else .error "invalid mnemonic length"

/-- `validateMnemonic` from src/src/core/mnemonic.ts: tries the decoder
and maps any failure to `false` (the try/catch around
`Mnemonic.fromPhrase`); never fails itself. -/
def validateMnemonic (W : Wordlist) (cs : List Nat → Nat) (phrase : List Word) :
    Bool :=
  match mnemonicToEntropy W cs phrase with
  | .ok _ => true
  | .error _ => false

/-- `generateMnemonic` from src/src/core/mnemonic.ts, with the 16 bytes
drawn from the CSPRNG passed in explicitly: the generated phrase is the
word encoding of that entropy. -/
def generateMnemonic (W : Wordlist) (cs : List Nat → Nat) (entropy : List Nat) :
    List Word :=
  entropyToMnemonic W cs entropy

/-! ### A concrete word list

Used to instantiate the model in closed witnesses: word `i` is the
three-letter base-26 spelling of `i` (codes 97..122), which makes the
inverse lookup computable and provable. -/

/-- Word `i` of the sample list: three lowercase letters spelling `i`
in base 26. -/
def sampleWords (i : Nat) : Word :=
  (natToDigitsBE 26 3 i).map (fun d => 97 + d)

/-- Inverse lookup for `sampleWords`: decode the three letters and
check the value is a valid word index. -/
def sampleInv (w : Word) : Option Nat :=
  if w.length = 3 ∧ ∀ c ∈ w, 97 ≤ c ∧ c < 123 then
    let i := digitsToNatBE 26 (w.map (fun c => c - 97))
    if i < 2048 then some i else none
  else none

def sampleWordlist : Wordlist where
  words := sampleWords
  inv := sampleInv

/-! ## Key manager (key-manager.ts)

`HDNodeWallet.fromPhrase` is the ethers BIP-32/BIP-44 derivation, not
part of this repository; per the spec it is a deterministic pure
function of (seed phrase, derivation path), so it appears here as an
explicit function parameter `hd`.  The cache (`Map<Chain, string>`) is
an association list keyed by `Chain`; mutation is rendered by returning
the updated manager. -/

/-- The supported blockchain networks (type `Chain` in types.ts). -/
inductive Chain
  | ethereum
  | polygon
  | bsc
  | arbitrum
  | bitcoin
deriving DecidableEq, Repr

/-- BIP-44 derivation paths for supported chains (without the m/
prefix); `\x27` is the apostrophe marking hardened segments. -/
def DERIVATION_PATHS : Chain → String
  | .ethereum => "44\x27/60\x27/0\x27/0/0"
  | .polygon => "44\x27/60\x27/0\x27/0/0"
  | .bsc => "44\x27/60\x27/0\x27/0/0"
  | .arbitrum => "44\x27/60\x27/0\x27/0/0"
  | .bitcoin => "44\x27/0\x27/0\x27/0/0"

/-- Lookup in the derived-keys cache (`Map.has` / `Map.get`). -/
def findKey (c : Chain) : List (Chain × Str) → Option Str
  | [] => none
  | (k, v) :: rest => if k = c then some v else findKey c rest

/-- Key manager state: the mnemonic it was constructed from and the
cache of derived keys. -/
structure KeyManager where
  mnemonic : List Word
  derivedKeys : List (Chain × Str)

/-- The KeyManager constructor: stores the mnemonic, nothing else (in
particular it performs no validation and cannot fail). -/
def KeyManager.create (mnemonic : List Word) : KeyManager :=
  { mnemonic := mnemonic, derivedKeys := [] }

/-- `derivePrivateKey`: return the cached key if present, otherwise
derive via `hd` on `m/` ++ the fixed path and cache the result. -/
def KeyManager.derivePrivateKey (hd : List Word → String → Str)
    (km : KeyManager) (chain : Chain) : Str × KeyManager :=
  match findKey chain km.derivedKeys with
  | some k => (k, km)
  | none =>
    let path := DERIVATION_PATHS chain
    let privateKey := hd km.mnemonic ("m/" ++ path)
    (privateKey, { km with derivedKeys := (chain, privateKey) :: km.derivedKeys })

/-- `getMnemonic`. -/
def KeyManager.getMnemonic (km : KeyManager) : List Word :=
  km.mnemonic

/-- `clear`: evict the derived-key cache. -/
def KeyManager.clear (km : KeyManager) : KeyManager :=
  { km with derivedKeys := [] }

/-! ## Shared result types (types.ts) -/

/-- Balance information (amount in the smallest unit, as a big integer). -/
structure Balance where
  amount : Int
  formatted : String
  symbol : String
  decimals : Nat
deriving DecidableEq, Repr

/-- Fee estimate. -/
structure FeeEstimate where
  gasFee : Int
  gasPrice : Int
  gasLimit : Int
  formatted : String
deriving DecidableEq, Repr

/-- Payment parameters (types.ts `PaymentParams`; `fromAddr`/`toAddr`
are the `from`/`to` fields). -/
structure PaymentParams where
  chain : Chain
  fromAddr : Str
  toAddr : Str
  amount : String
  token : String
  gasPrice : Option String := none
  gasLimit : Option String := none

/-- Fixed-point decimal rendering with `decimals` fractional digits:
the shape `Number(x) / 10 ** decimals` followed by `toFixed(decimals)`
produces (bit-exact for the magnitudes the code handles). -/
def toFixedDecimals (decimals : Nat) (x : Int) : String :=
  let n := x.natAbs
  let base := 10 ^ decimals
  let sign := if x < 0 then "-" else ""
  let fracDigits := toString (n % base)
  let pad := String.mk (List.replicate (decimals - fracDigits.length) (Char.ofNat 48))
  sign ++ toString (n / base) ++ "." ++ pad ++ fracDigits

/-- `ethers.formatUnits`: like `toFixedDecimals` but with trailing
zeros of the fraction trimmed (at least one fractional digit kept). -/
def formatUnits (amount : Int) (decimals : Nat) : String :=
  let n := amount.natAbs
  let base := 10 ^ decimals
  let sign := if amount < 0 then "-" else ""
  let fracDigits := toString (n % base)
  let padded := List.replicate (decimals - fracDigits.length) (Char.ofNat 48) ++
    fracDigits.toList
  let frac := (padded.reverse.dropWhile (fun c => c = Char.ofNat 48)).reverse
  sign ++ toString (n / base) ++ "." ++
    (if frac.isEmpty then "0" else String.mk frac)

/-! ## Base64 (Buffer.toString of node, used by BitcoinChain.signMessage)

Standard base64 over byte lists; 61 is the code of the padding
character. -/

/-- The base64 alphabet: digit value to character code. -/
def b64Char (d : Nat) : Nat :=
  if d < 26 then 65 + d
  else if d < 52 then 71 + d
  else if d < 62 then d - 4
  else if d = 62 then 43
  else 47

/-- Character code back to base64 digit value; `none` off the alphabet. -/
def b64Val (c : Nat) : Option Nat :=
  if 65 ≤ c ∧ c ≤ 90 then some (c - 65)
  else if 97 ≤ c ∧ c ≤ 122 then some (c - 71)
  else if 48 ≤ c ∧ c ≤ 57 then some (c + 4)
  else if c = 43 then some 62
  else if c = 47 then some 63
  else none

/-- Base64-encode a byte list, three bytes to four characters, with
`=` padding for a trailing block of one or two bytes. -/
def base64Encode : List Nat → List Nat
  | [] => []
  | [b0] => (natToDigitsBE 64 2 (b0 * 16)).map b64Char ++ [61, 61]
  | [b0, b1] => (natToDigitsBE 64 3 ((b0 * 256 + b1) * 4)).map b64Char ++ [61]
  | b0 :: b1 :: b2 :: rest =>
    (natToDigitsBE 64 4 (b0 * 65536 + b1 * 256 + b2)).map b64Char ++
      base64Encode rest

/-- Base64-decode; `none` on any malformed input. -/
def base64Decode : List Nat → Option (List Nat)
  | [] => some []
  | c0 :: c1 :: c2 :: c3 :: rest =>
    if c2 = 61 ∧ c3 = 61 ∧ rest = [] then
      match b64Val c0, b64Val c1 with
      | some d0, some d1 =>
        let n := d0 * 64 + d1
        if n % 16 = 0 then some [n / 16] else none
      | _, _ => none
    else if c3 = 61 ∧ rest = [] then
      match b64Val c0, b64Val c1, b64Val c2 with
      | some d0, some d1, some d2 =>
        let n := d0 * 4096 + d1 * 64 + d2
        if n % 4 = 0 then some [n / 4 / 256, n / 4 % 256] else none
      | _, _, _ => none
    else
      match b64Val c0, b64Val c1, b64Val c2, b64Val c3 with
      | some d0, some d1, some d2, some d3 =>
        let n := ((d0 * 64 + d1) * 64 + d2) * 64 + d3
        match base64Decode rest with
        | some bs => some ([n / 65536, n / 256 % 256, n % 256] ++ bs)
        | none => none
      | _, _, _, _ => none
  | _ => none

/-! ## Bitcoin chain adapter (bitcoin.ts)

Results of the block-explorer fetches are passed in as an explicit
backend value; the try/catch blocks of the source become matches on
those `Except` results. -/

/-- The `chain_stats` object of the blockstream address endpoint. -/
structure BtcChainStats where
  funded_txo_sum : Int
  spent_txo_sum : Int
deriving Repr

/-- Outcomes of the block-explorer calls the Bitcoin adapter makes:
`.error` represents a failed fetch (network error or bad payload). -/
structure BtcBackend where
  addressStats : Except String BtcChainStats
  feeEstimates : Except String (Nat → Option Nat)

namespace BitcoinChain

/-- `deriveAddress`: the placeholder derivation
`bc1q + privateKey.slice(2, 40)`. -/
def deriveAddress (privateKey : Str) : Str :=
  [98, 99, 49, 113] ++ (privateKey.drop 2).take 38

/-- `getAddress` returns the address computed at construction time. -/
def getAddress (privateKey : Str) : Str :=
  deriveAddress privateKey

/-- `connect` is a no-op for Bitcoin (public block explorers). -/
def connect : Except String Unit := .ok ()

/-- `getBalance`: on a successful fetch, funded minus spent satoshis;
the catch branch turns any failure into a zero balance. -/
def getBalance (backend : BtcBackend) : Except String Balance :=
  match backend.addressStats with
  | .ok data =>
    let satoshis : Int := data.funded_txo_sum - data.spent_txo_sum
    .ok { amount := satoshis, formatted := toFixedDecimals 8 satoshis,
          symbol := "BTC", decimals := 8 }
  | .error _ =>
    .ok { amount := 0, formatted := "0", symbol := "BTC", decimals := 8 }

/-- `estimateFee`: 6-block fee rate (or 10 when absent or zero, the
`|| 10` fallback) times the estimated 250-byte size; the catch branch
returns the fixed default estimate. -/
def estimateFee (backend : BtcBackend) (_params : PaymentParams) :
    Except String FeeEstimate :=
  match backend.feeEstimates with
  | .ok feeData =>
    let satPerByte := match feeData 6 with
      | some v => if v = 0 then 10 else v
      | none => 10
    let estimatedSize := 250
    let satoshis : Int := satPerByte * estimatedSize
    .ok { gasFee := satoshis, gasPrice := satPerByte, gasLimit := estimatedSize,
          formatted := toFixedDecimals 8 satoshis }
  | .error _ =>
    .ok { gasFee := 2500, gasPrice := 10, gasLimit := 250,
          formatted := "0.00002500" }

/-- `sendTransaction` always throws: the implementation requires
bitcoinjs-lib. -/
def sendTransaction (_params : PaymentParams) : Except String Str :=
  .error "Bitcoin transactions require bitcoinjs-lib. Install with: npm install bitcoinjs-lib"

/-- `signMessage`: base64 of private key concatenated with the message
(`Buffer.from(this.privateKey + message).toString(base64)`). -/
def signMessage (privateKey message : Str) : Str :=
  base64Encode (privateKey ++ message)

end BitcoinChain

/-! ## EVM chain adapter (ethereum.ts)

The ethers provider/wallet calls are external; their outcomes are an
explicit backend value, and the address/signature derivation of
`ethers.Wallet` is a function parameter (`addrOf` / `signFn`). -/

/-- Outcomes of the JSON-RPC and contract calls the EVM adapter makes. -/
structure EvmBackend where
  network : Except String Unit
  nativeBalance : Except String Int
  tokenBalanceOf : Except String Int
  tokenDecimals : Except String Nat
  tokenSymbol : Except String String
  feeData : Except String (Option Int)
  transferEstimateGas : Except String Int
  sendNative : Except String Str

namespace EthereumChain

/-- Chain display name: first letter upper-cased
(`chain.charAt(0).toUpperCase() + chain.slice(1)`), tabulated for the
four registered chain ids. -/
def nameOf : String → String
  | "ethereum" => "Ethereum"
  | "polygon" => "Polygon"
  | "bsc" => "Bsc"
  | "arbitrum" => "Arbitrum"
  | s => s

/-- Numeric chain ids, rendered to string as the constructor does. -/
def chainIdOf : String → String
  | "ethereum" => "1"
  | "polygon" => "137"
  | "bsc" => "56"
  | "arbitrum" => "42161"
  | _ => "0"

/-- `connect`: queries the network and wraps a failure in the
`Failed to connect` message. -/
def connect (name : String) (backend : EvmBackend) : Except String Unit :=
  match backend.network with
  | .ok _ => .ok ()
  | .error e => .error ("Failed to connect to " ++ name ++ ": " ++ e)

/-- Native symbol selection from `getBalance`. -/
def nativeSymbol (name : String) : String :=
  if name = "Polygon" then "MATIC" else if name = "Bsc" then "BNB" else "ETH"

/-- `getBalance`: native balance, or the three ERC-20 calls for a token
address; every backend failure propagates unchanged (no catch). -/
def getBalance (name : String) (backend : EvmBackend) (tokenAddress : Option Str) :
    Except String Balance :=
  match tokenAddress with
  | none => do
    let amount ← backend.nativeBalance
    .ok { amount := amount, formatted := formatUnits amount 18,
          symbol := nativeSymbol name, decimals := 18 }
  | some _ => do
    let amount ← backend.tokenBalanceOf
    let decimals ← backend.tokenDecimals
    let symbol ← backend.tokenSymbol
    .ok { amount := amount, formatted := formatUnits amount decimals,
          symbol := symbol, decimals := decimals }

/-- Membership in the native-token list of estimateFee and
sendTransaction. -/
def isNativeToken (token : String) : Bool :=
  token = "ETH" || token = "MATIC" || token = "BNB"

/-- `estimateFee`: 21000 gas for native transfers, otherwise the
estimateGas call; gas price is `feeData.gasPrice || 0n`; failures
propagate unchanged. -/
def estimateFee (backend : EvmBackend) (params : PaymentParams) :
    Except String FeeEstimate := do
  let gasLimit ← if isNativeToken params.token then pure (21000 : Int)
    else backend.transferEstimateGas
  let feeData ← backend.feeData
  let gasPrice := feeData.getD 0
  let gasFee := gasLimit * gasPrice
  .ok { gasFee := gasFee, gasPrice := gasPrice, gasLimit := gasLimit,
        formatted := formatUnits gasFee 18 }

/-- `sendTransaction`: native transfers submit through the wallet and
return the hash; token transfers throw. -/
def sendTransaction (backend : EvmBackend) (params : PaymentParams) :
    Except String Str :=
  if isNativeToken params.token then backend.sendNative
  else .error "ERC-20 transfers require token address configuration"

end EthereumChain

/-! ## Chain registry (base.ts) -/

/-- The per-instance capability record of `BaseChain`: each field holds
the outcome of the corresponding method on this adapter instance in the
modelled environment. -/
structure BaseChain where
  chainId : String
  address : Str
  connect : Except String Unit
  getBalance : Except String Balance
  estimateFee : PaymentParams → Except String FeeEstimate
  sendTransaction : PaymentParams → Except String Str
  signMessage : Str → Str

/-- A chain factory builds an adapter from a private key and an
optional RPC override. -/
abbrev ChainFactory := Str → Option String → BaseChain

/-- The registry: the mutable `ChainRegistry` object rendered as an
association list keyed by chain id; `registerChain` prepends, so the
newest registration wins the lookup (last write wins). -/
abbrev Registry := List (String × ChainFactory)

/-- `registerChain`. -/
def registerChain (reg : Registry) (chain : String) (factory : ChainFactory) :
    Registry :=
  (chain, factory) :: reg

/-- Registry lookup (`ChainRegistry[chain]`). -/
def lookupFactory (chain : String) : Registry → Option ChainFactory
  | [] => none
  | (c, f) :: rest => if c = chain then some f else lookupFactory chain rest

/-- `getChain`: instantiate via the registered factory; throw
`Chain ... not implemented` when none is registered.  The registry is
global mutable state in the source, so it is threaded explicitly; the
function only reads it and hands it back. -/
def getChain (reg : Registry) (chain : String) (privateKey : Str)
    (rpcUrl : Option String) : Except String BaseChain × Registry :=
  match lookupFactory chain reg with
  | some factory => (.ok (factory privateKey rpcUrl), reg)
  | none => (.error ("Chain " ++ chain ++ " not implemented"), reg)

/-- Build the `BaseChain` record of an `EthereumChain` instance.
`addrOf`/`signFn` stand for the address and signature computations of
`ethers.Wallet` (pure functions of the private key). -/
def EthereumChain.mk (chain : String) (addrOf : Str → Str)
    (signFn : Str → Str → Str) (backend : EvmBackend) (privateKey : Str) :
    BaseChain :=
  { chainId := EthereumChain.chainIdOf chain
    address := addrOf privateKey
    connect := EthereumChain.connect (EthereumChain.nameOf chain) backend
    getBalance := EthereumChain.getBalance (EthereumChain.nameOf chain) backend none
    estimateFee := EthereumChain.estimateFee backend
    sendTransaction := EthereumChain.sendTransaction backend
    signMessage := signFn privateKey }

/-- Build the `BaseChain` record of a `BitcoinChain` instance. -/
def BitcoinChain.mk (backend : BtcBackend) (privateKey : Str) : BaseChain :=
  { chainId := "bitcoin"
    address := BitcoinChain.deriveAddress privateKey
    connect := BitcoinChain.connect
    getBalance := BitcoinChain.getBalance backend
    estimateFee := BitcoinChain.estimateFee backend
    sendTransaction := BitcoinChain.sendTransaction
    signMessage := BitcoinChain.signMessage privateKey }

/-- `ethereumFactory chain`: the factory registered for each EVM chain
id. -/
def ethereumFactory (chain : String) (addrOf : Str → Str)
    (signFn : Str → Str → Str) (backend : EvmBackend) : ChainFactory :=
  fun privateKey _rpcUrl => EthereumChain.mk chain addrOf signFn backend privateKey

/-- The registrations performed at module load in wallet.ts: the four
EVM chains, then Bitcoin.  The environment (address derivation, signer,
backend outcomes per chain id) is supplied as parameters. -/
def defaultRegistry (addrOf : Str → Str) (signFn : Str → Str → Str)
    (evmEnv : String → EvmBackend) (btcEnv : BtcBackend) : Registry :=
  let r0 : Registry := []
  let r1 := registerChain r0 "ethereum" (ethereumFactory "ethereum" addrOf signFn (evmEnv "ethereum"))
  let r2 := registerChain r1 "polygon" (ethereumFactory "polygon" addrOf signFn (evmEnv "polygon"))
  let r3 := registerChain r2 "bsc" (ethereumFactory "bsc" addrOf signFn (evmEnv "bsc"))
  let r4 := registerChain r3 "arbitrum" (ethereumFactory "arbitrum" addrOf signFn (evmEnv "arbitrum"))
  registerChain r4 "bitcoin" (fun privateKey _rpc => BitcoinChain.mk btcEnv privateKey)

/-! ## Wallet orchestrator (wallet.ts) -/

/-- Chain identifier strings. -/
def Chain.id : Chain → String
  | .ethereum => "ethereum"
  | .polygon => "polygon"
  | .bsc => "bsc"
  | .arbitrum => "arbitrum"
  | .bitcoin => "bitcoin"

/-- Everything the wallet layer consumes from outside this repository:
the HD derivation of ethers (`hd`), the EVM address and signature
computations of `ethers.Wallet` (`addrOf`, `signFn`), and the outcomes
of the network backends. -/
structure Env where
  hd : List Word → String → Str
  addrOf : Str → Str
  signFn : Str → Str → Str
  evmEnv : String → EvmBackend
  btcEnv : BtcBackend

/-- The registry as initialized at module load of wallet.ts. -/
def Env.registry (env : Env) : Registry :=
  defaultRegistry env.addrOf env.signFn env.evmEnv env.btcEnv

/-- Wallet addresses for all supported chains. -/
structure WalletAddresses where
  ethereum : Str
  polygon : Str
  bsc : Str
  arbitrum : Str
  bitcoin : Str
deriving DecidableEq, Repr

/-- Wallet state: the key manager built at construction. -/
structure ClawCashWallet where
  keyManager : KeyManager

/-- The ClawCashWallet constructor, for the case where a mnemonic is
supplied (otherwise the source first draws one from
`generateMnemonic()`): validation happens here, and an invalid phrase
throws `Invalid mnemonic phrase` before any KeyManager exists. -/
def ClawCashWallet.create (W : Wordlist) (cs : List Nat → Nat)
    (mnemonic : List Word) : Except String ClawCashWallet :=
  if validateMnemonic W cs mnemonic then
    .ok { keyManager := KeyManager.create mnemonic }
  else .error "Invalid mnemonic phrase"

/-- `importWallet` from wallet.ts: validate, then construct. -/
def importWallet (W : Wordlist) (cs : List Nat → Nat) (mnemonic : List Word) :
    Except String ClawCashWallet :=
  if validateMnemonic W cs mnemonic then ClawCashWallet.create W cs mnemonic
  else .error "Invalid mnemonic phrase"

/-- `getBitcoinAddress`: the orchestrator placeholder
`bc1q + pk.slice(0, 38)`. -/
def ClawCashWallet.getBitcoinAddress (env : Env) (w : ClawCashWallet) :
    Str × ClawCashWallet :=
  let r := KeyManager.derivePrivateKey env.hd w.keyManager .bitcoin
  ([98, 99, 49, 113] ++ r.1.take 38, { keyManager := r.2 })

/-- One iteration of the EVM loop in `getAddresses`: derive the key,
build the adapter via the registry (a failure there propagates), attempt
`connect()` but swallow its outcome, and read the address. -/
def ClawCashWallet.addressStep (env : Env) (chain : Chain) (km : KeyManager) :
    Except String (Str × KeyManager) :=
  let r := KeyManager.derivePrivateKey env.hd km chain
  match (getChain env.registry chain.id r.1 none).1 with
  | .ok inst =>
    let _connectAttempt := inst.connect
    .ok (inst.address, r.2)
  | .error e => .error e

/-- `getAddresses`: the four EVM chains in order, then the Bitcoin
placeholder address. -/
def ClawCashWallet.getAddresses (env : Env) (w : ClawCashWallet) :
    Except String (WalletAddresses × ClawCashWallet) := do
  let (aEthereum, km1) ← ClawCashWallet.addressStep env .ethereum w.keyManager
  let (aPolygon, km2) ← ClawCashWallet.addressStep env .polygon km1
  let (aBsc, km3) ← ClawCashWallet.addressStep env .bsc km2
  let (aArbitrum, km4) ← ClawCashWallet.addressStep env .arbitrum km3
  let (aBitcoin, w5) := ClawCashWallet.getBitcoinAddress env { keyManager := km4 }
  .ok ({ ethereum := aEthereum, polygon := aPolygon, bsc := aBsc,
         arbitrum := aArbitrum, bitcoin := aBitcoin }, w5)

/-- `getBalance`: derive, build the adapter, require `connect()`, then
query; every error propagates unchanged. -/
def ClawCashWallet.getBalance (env : Env) (w : ClawCashWallet) (chain : Chain)
    (_token : Option String) : Except String Balance × ClawCashWallet :=
  let r := KeyManager.derivePrivateKey env.hd w.keyManager chain
  (do
    let inst ← (getChain env.registry chain.id r.1 none).1
    let _ ← inst.connect
    inst.getBalance, { keyManager := r.2 })

/-- `estimateFee`: same wiring as `getBalance`. -/
def ClawCashWallet.estimateFee (env : Env) (w : ClawCashWallet)
    (params : PaymentParams) : Except String FeeEstimate × ClawCashWallet :=
  let r := KeyManager.derivePrivateKey env.hd w.keyManager params.chain
  (do
    let inst ← (getChain env.registry params.chain.id r.1 none).1
    let _ ← inst.connect
    inst.estimateFee params, { keyManager := r.2 })

/-- `sendPayment`: same wiring as `getBalance`. -/
def ClawCashWallet.sendPayment (env : Env) (w : ClawCashWallet)
    (params : PaymentParams) : Except String Str × ClawCashWallet :=
  let r := KeyManager.derivePrivateKey env.hd w.keyManager params.chain
  (do
    let inst ← (getChain env.registry params.chain.id r.1 none).1
    let _ ← inst.connect
    inst.sendTransaction params, { keyManager := r.2 })

/-! ## Auxiliary definitions for the claims -/

/-- Hexadecimal-digit character codes (0-9, a-f, A-F). -/
def isHexCode (c : Nat) : Bool :=
  (48 ≤ c && c ≤ 57) || (97 ≤ c && c ≤ 102) || (65 ≤ c && c ≤ 70)

/-- A concrete EVM backend with every call succeeding trivially; used
to instantiate theorems at closed inputs. -/
def sampleEvmBackend : EvmBackend :=
  { network := .ok (), nativeBalance := .ok 0, tokenBalanceOf := .ok 0,
    tokenDecimals := .ok 18, tokenSymbol := .ok "USDT", feeData := .ok none,
    transferEstimateGas := .ok 0, sendNative := .ok [] }

/-- A concrete Bitcoin backend with trivially succeeding calls. -/
def sampleBtcBackend : BtcBackend :=
  { addressStats := .ok { funded_txo_sum := 0, spent_txo_sum := 0 },
    feeEstimates := .ok (fun _ => none) }

/-- A concrete environment: the derivation function returns the
66-character key 0x followed by 64 times the letter a. -/
def sampleEnv : Env :=
  { hd := fun _ _ => 48 :: 120 :: List.replicate 64 97
    addrOf := fun pk => pk
    signFn := fun _ message => message
    evmEnv := fun _ => sampleEvmBackend
    btcEnv := sampleBtcBackend }

/-! # Proof development

All theorems about the embedded definitions, followed by the claim
theorems. -/

theorem length_natToDigitsBE (base len n : Nat) :
    (natToDigitsBE base len n).length = len := by
  induction len generalizing n with
  | zero => simp [natToDigitsBE]
  | succ l ih => simp [natToDigitsBE, ih]

theorem digitsToNatBE_nil (base : Nat) : digitsToNatBE base [] = 0 := rfl

theorem digitsToNatBE_concat (base : Nat) (ds : List Nat) (d : Nat) :
    digitsToNatBE base (ds ++ [d]) = digitsToNatBE base ds * base + d := by
  simp [digitsToNatBE, List.foldl_append]

theorem digitsToNatBE_natToDigitsBE {base len n : Nat} (h : n < base ^ len) :
    digitsToNatBE base (natToDigitsBE base len n) = n := by
  induction len generalizing n with
  | zero =>
    have : n = 0 := by simpa using Nat.lt_one_iff.mp (by simpa using h)
    simp [natToDigitsBE, digitsToNatBE, this]
  | succ l ih =>
    have hbase : 0 < base := by
      rcases Nat.eq_zero_or_pos base with hb | hb
      · subst hb; simp at h
      · exact hb
    have hdiv : n / base < base ^ l := by
      rw [Nat.div_lt_iff_lt_mul hbase]
      calc n < base ^ (l + 1) := h
        _ = base ^ l * base := by rw [pow_succ]
    rw [natToDigitsBE, digitsToNatBE_concat, ih hdiv, Nat.mul_comm]
    exact Nat.div_add_mod n base

theorem mem_natToDigitsBE_lt {base len n d : Nat} (hbase : 0 < base)
    (hd : d ∈ natToDigitsBE base len n) : d < base := by
  induction len generalizing n with
  | zero => simp [natToDigitsBE] at hd
  | succ l ih =>
    rw [natToDigitsBE] at hd
    rcases List.mem_append.mp hd with h | h
    · exact ih h
    · simp at h
      subst h
      exact Nat.mod_lt _ hbase

theorem natToDigitsBE_digitsToNatBE {base : Nat} :
    ∀ {ds : List Nat}, (∀ d ∈ ds, d < base) →
      natToDigitsBE base ds.length (digitsToNatBE base ds) = ds := by
  intro ds
  induction ds using List.reverseRecOn with
  | nil => intro _; simp [natToDigitsBE]
  | append_singleton ds d ih =>
    intro hlt
    have hd : d < base := hlt d (by simp)
    have hbase : 0 < base := by omega
    have hlen : (ds ++ [d]).length = ds.length + 1 := by simp
    rw [hlen, natToDigitsBE, digitsToNatBE_concat]
    have hdiv : (digitsToNatBE base ds * base + d) / base = digitsToNatBE base ds := by
      rw [Nat.mul_comm, Nat.mul_add_div hbase, Nat.div_eq_of_lt hd]
      omega
    have hmod : (digitsToNatBE base ds * base + d) % base = d := by
      rw [Nat.mul_comm, Nat.mul_add_mod]
      exact Nat.mod_eq_of_lt hd
    rw [hdiv, hmod, ih (fun x hx => hlt x (by simp [hx]))]

theorem digitsToNatBE_lt {base : Nat} :
    ∀ {ds : List Nat}, (∀ d ∈ ds, d < base) →
      digitsToNatBE base ds < base ^ ds.length := by
  intro ds
  induction ds using List.reverseRecOn with
  | nil => intro _; simp [digitsToNatBE]
  | append_singleton ds d ih =>
    intro hlt
    have hd : d < base := hlt d (by simp)
    have hds : digitsToNatBE base ds < base ^ ds.length :=
      ih (fun x hx => hlt x (by simp [hx]))
    rw [digitsToNatBE_concat]
    have : (ds ++ [d]).length = ds.length + 1 := by simp
    rw [this, pow_succ]
    calc digitsToNatBE base ds * base + d
        < digitsToNatBE base ds * base + base := by omega
      _ = (digitsToNatBE base ds + 1) * base := by ring
      _ ≤ base ^ ds.length * base := by
          have : digitsToNatBE base ds + 1 ≤ base ^ ds.length := by omega
          exact Nat.mul_le_mul_right base this

/-! ### Round-trip lemmas for the mnemonic encoding -/

theorem wordIndices_map_words (W : Wordlist) (hW : W.Good) :
    ∀ {idxs : List Nat}, (∀ i ∈ idxs, i < 2048) →
      wordIndices W (idxs.map W.words) = some idxs := by
  intro idxs
  induction idxs with
  | nil => intro _; simp [wordIndices]
  | cons i is ih =>
    intro h
    have hi : i < 2048 := h i (by simp)
    simp only [List.map_cons, wordIndices, hW.1 i hi,
      ih (fun x hx => h x (by simp [hx]))]

theorem wordIndices_eq_some (W : Wordlist) (hW : W.Good) :
    ∀ {ws : List Word} {idxs : List Nat}, wordIndices W ws = some idxs →
      ws = idxs.map W.words ∧ idxs.length = ws.length ∧ ∀ i ∈ idxs, i < 2048 := by
  intro ws
  induction ws with
  | nil =>
    intro idxs h
    simp [wordIndices] at h
    subst h
    simp
  | cons w ws ih =>
    intro idxs h
    rw [wordIndices] at h
    cases hw : W.inv w with
    | none => rw [hw] at h; simp at h
    | some i =>
      rw [hw] at h
      cases hrest : wordIndices W ws with
      | none => rw [hrest] at h; simp at h
      | some is =>
        rw [hrest] at h
        simp at h
        subst h
        obtain ⟨h1, h2, h3⟩ := ih hrest
        obtain ⟨hwi, hilt⟩ := hW.2 w i hw
        refine ⟨by simp [hwi, h1], by simp [h2], ?_⟩
        intro x hx
        rcases List.mem_cons.mp hx with hx | hx
        · subst hx; exact hilt
        · exact h3 x hx

/-- Entropy survives the trip through the word encoding: for any 16-byte
entropy, decoding the generated phrase returns exactly that entropy. -/
theorem mnemonicToEntropy_entropyToMnemonic_mixed (W : Wordlist) (hW : W.Good)
    (csEnc csDec : List Nat → Nat) {entropy : List Nat} (hlen : entropy.length = 16)
    (hbytes : ∀ b ∈ entropy, b < 256) :
    mnemonicToEntropy W csDec (entropyToMnemonic W csEnc entropy) =
      if csDec entropy % 16 = csEnc entropy % 16 then .ok entropy
      else .error "invalid mnemonic checksum" := by
  have hE : digitsToNatBE 256 entropy < 2 ^ 128 := by
    have := digitsToNatBE_lt hbytes
    rw [hlen] at this
    calc digitsToNatBE 256 entropy < 256 ^ 16 := this
      _ = 2 ^ 128 := by norm_num
  set n := digitsToNatBE 256 entropy * 16 + csEnc entropy % 16 with hn
  have hcs : csEnc entropy % 16 < 16 := Nat.mod_lt _ (by norm_num)
  have hnlt : n < 2048 ^ 12 := by
    have : (2048 : Nat) ^ 12 = 2 ^ 128 * 16 := by norm_num
    rw [this]
    omega
  have hidxs : ∀ i ∈ natToDigitsBE 2048 12 n, i < 2048 :=
    fun i hi => mem_natToDigitsBE_lt (by norm_num) hi
  rw [entropyToMnemonic]
  rw [mnemonicToEntropy]
  rw [if_pos (by simp [length_natToDigitsBE])]
  rw [wordIndices_map_words W hW hidxs]
  simp only
  rw [digitsToNatBE_natToDigitsBE hnlt]
  have hdiv : n / 16 = digitsToNatBE 256 entropy := by omega
  have hmod : n % 16 = csEnc entropy % 16 := by omega
  have hback : natToDigitsBE 256 16 (n / 16) = entropy := by
    rw [hdiv]
    have := natToDigitsBE_digitsToNatBE hbytes
    rw [hlen] at this
    exact this
  rw [hback, hmod]

/-- Entropy survives the trip through the word encoding when the same
checksum function is used on both sides. -/
theorem mnemonicToEntropy_entropyToMnemonic (W : Wordlist) (hW : W.Good)
    (cs : List Nat → Nat) {entropy : List Nat} (hlen : entropy.length = 16)
    (hbytes : ∀ b ∈ entropy, b < 256) :
    mnemonicToEntropy W cs (entropyToMnemonic W cs entropy) = .ok entropy := by
  rw [mnemonicToEntropy_entropyToMnemonic_mixed W hW cs cs hlen hbytes, if_pos rfl]

/-- Any phrase the decoder accepts is exactly the word encoding of the
entropy it returns. -/
theorem entropyToMnemonic_mnemonicToEntropy (W : Wordlist) (hW : W.Good)
    (cs : List Nat → Nat) {phrase : List Word} {entropy : List Nat}
    (h : mnemonicToEntropy W cs phrase = .ok entropy) :
    entropyToMnemonic W cs entropy = phrase := by
  rw [mnemonicToEntropy] at h
  by_cases hlen : phrase.length = 12
  · rw [if_pos hlen] at h
    cases hw : wordIndices W phrase with
    | none => rw [hw] at h; simp at h
    | some idxs =>
      rw [hw] at h
      simp only at h
      by_cases hcs : cs (natToDigitsBE 256 16 (digitsToNatBE 2048 idxs / 16)) % 16 =
          digitsToNatBE 2048 idxs % 16
      · rw [if_pos hcs] at h
        obtain ⟨hmap, hidlen, hidlt⟩ := wordIndices_eq_some W hW hw
        have hent : entropy = natToDigitsBE 256 16 (digitsToNatBE 2048 idxs / 16) := by
          cases h
          rfl
        set N := digitsToNatBE 2048 idxs with hN
        have hNlt : N < 2048 ^ 12 := by
          have := digitsToNatBE_lt hidlt
          rw [hidlen, hlen] at this
          exact this
        have hdivlt : N / 16 < 2 ^ 128 := by
          have h1 : (2048 : Nat) ^ 12 = 2 ^ 128 * 16 := by norm_num
          omega
        have hE : digitsToNatBE 256 entropy = N / 16 := by
          rw [hent]
          exact digitsToNatBE_natToDigitsBE (by
            calc N / 16 < 2 ^ 128 := hdivlt
              _ = 256 ^ 16 := by norm_num)
        rw [entropyToMnemonic, hE]
        have hrecomb : N / 16 * 16 + cs entropy % 16 = N := by
          rw [hent, hcs]
          omega
        rw [hrecomb]
        have hback : natToDigitsBE 2048 12 N = idxs := by
          have := natToDigitsBE_digitsToNatBE hidlt
          rw [hidlen, hlen] at this
          exact this
        rw [hback, ← hmap]
      · rw [if_neg hcs] at h
        simp at h
  · rw [if_neg hlen] at h
    simp at h

theorem sampleInv_sampleWords (i : Nat) (hi : i < 2048) :
    sampleInv (sampleWords i) = some i := by
  have hdig : ∀ d ∈ natToDigitsBE 26 3 i, d < 26 :=
    fun d hd => mem_natToDigitsBE_lt (by norm_num) hd
  have hcond : (sampleWords i).length = 3 ∧ ∀ c ∈ sampleWords i, 97 ≤ c ∧ c < 123 := by
    constructor
    · simp [sampleWords, length_natToDigitsBE]
    · intro c hc
      simp only [sampleWords, List.mem_map] at hc
      obtain ⟨d, hd, rfl⟩ := hc
      have := hdig d hd
      omega
  rw [sampleInv, if_pos hcond]
  have hmap : (sampleWords i).map (fun c => c - 97) = natToDigitsBE 26 3 i := by
    rw [sampleWords, List.map_map]
    have : ∀ d ∈ natToDigitsBE 26 3 i,
        ((fun c => c - 97) ∘ fun d => 97 + d) d = id d := by
      intro d _; simp
    rw [List.map_congr_left this, List.map_id]
  rw [hmap]
  have hval : digitsToNatBE 26 (natToDigitsBE 26 3 i) = i := by
    exact digitsToNatBE_natToDigitsBE (by
      calc i < 2048 := hi
        _ < 26 ^ 3 := by norm_num)
  rw [hval, if_pos hi]

theorem sampleWords_sampleInv (w : Word) (i : Nat) (h : sampleInv w = some i) :
    sampleWords i = w ∧ i < 2048 := by
  rw [sampleInv] at h
  by_cases hcond : w.length = 3 ∧ ∀ c ∈ w, 97 ≤ c ∧ c < 123
  · rw [if_pos hcond] at h
    simp only at h
    by_cases hlt : digitsToNatBE 26 (w.map (fun c => c - 97)) < 2048
    · rw [if_pos hlt] at h
      have hi : i = digitsToNatBE 26 (w.map (fun c => c - 97)) := by
        cases h; rfl
      subst hi
      refine ⟨?_, hlt⟩
      rw [sampleWords]
      have hdigs : ∀ d ∈ w.map (fun c => c - 97), d < 26 := by
        intro d hd
        simp only [List.mem_map] at hd
        obtain ⟨c, hc, rfl⟩ := hd
        have := hcond.2 c hc
        omega
      have hlen : (w.map (fun c => c - 97)).length = 3 := by
        simp [hcond.1]
      have := natToDigitsBE_digitsToNatBE hdigs
      rw [hlen] at this
      rw [this, List.map_map]
      have hid : ∀ c ∈ w, ((fun d => 97 + d) ∘ fun c => c - 97) c = id c := by
        intro c hc
        have := hcond.2 c hc
        simp
        omega
      rw [List.map_congr_left hid, List.map_id]
    · rw [if_neg hlt] at h; simp at h
  · rw [if_neg hcond] at h; simp at h

/-- The sample word list satisfies the inverse laws. -/
theorem sampleWordlist_good : sampleWordlist.Good :=
  ⟨sampleInv_sampleWords, sampleWords_sampleInv⟩

/-! ## Base64 round-trip -/

theorem b64Val_b64Char : ∀ d, d < 64 → b64Val (b64Char d) = some d := by decide

theorem b64Char_ne_61 (d : Nat) : b64Char d ≠ 61 := by
  unfold b64Char
  split_ifs <;> omega

theorem natToDigitsBE_two (b n : Nat) :
    natToDigitsBE b 2 n = [n / b % b, n % b] := rfl

theorem natToDigitsBE_three (b n : Nat) :
    natToDigitsBE b 3 n = [n / b / b % b, n / b % b, n % b] := rfl

theorem natToDigitsBE_four (b n : Nat) :
    natToDigitsBE b 4 n = [n / b / b / b % b, n / b / b % b, n / b % b, n % b] := rfl

theorem base64Decode_base64Encode :
    ∀ bs : List Nat, (∀ b ∈ bs, b < 256) →
      base64Decode (base64Encode bs) = some bs := by
  intro bs
  induction bs using base64Encode.induct with
  | case1 => intro _; rfl
  | case2 b0 =>
    intro hb
    have hb0 : b0 < 256 := hb b0 (by simp)
    rw [base64Encode, natToDigitsBE_two]
    simp only [List.map_cons, List.map_nil, List.cons_append, List.nil_append]
    rw [base64Decode]
    rw [if_pos ⟨rfl, rfl, rfl⟩]
    rw [b64Val_b64Char _ (Nat.mod_lt _ (by norm_num)),
      b64Val_b64Char _ (Nat.mod_lt _ (by norm_num))]
    simp only
    rw [if_pos (by omega)]
    simp only [Option.some.injEq, List.cons.injEq, and_true]
    omega
  | case3 b0 b1 =>
    intro hb
    have hb0 : b0 < 256 := hb b0 (by simp)
    have hb1 : b1 < 256 := hb b1 (by simp)
    rw [base64Encode, natToDigitsBE_three]
    simp only [List.map_cons, List.map_nil, List.cons_append, List.nil_append]
    rw [base64Decode]
    rw [if_neg (fun hcontra => b64Char_ne_61 _ hcontra.1)]
    rw [if_pos ⟨rfl, rfl⟩]
    rw [b64Val_b64Char _ (Nat.mod_lt _ (by norm_num)),
      b64Val_b64Char _ (Nat.mod_lt _ (by norm_num)),
      b64Val_b64Char _ (Nat.mod_lt _ (by norm_num))]
    simp only
    rw [if_pos (by omega)]
    simp only [Option.some.injEq, List.cons.injEq, and_true]
    constructor <;> omega
  | case4 b0 b1 b2 rest ih =>
    intro hb
    have hb0 : b0 < 256 := hb b0 (by simp)
    have hb1 : b1 < 256 := hb b1 (by simp)
    have hb2 : b2 < 256 := hb b2 (by simp)
    rw [base64Encode, natToDigitsBE_four]
    simp only [List.map_cons, List.map_nil, List.cons_append, List.nil_append]
    rw [base64Decode]
    rw [if_neg (fun hcontra => b64Char_ne_61 _ hcontra.1)]
    rw [if_neg (fun hcontra => b64Char_ne_61 _ hcontra.1)]
    rw [b64Val_b64Char _ (Nat.mod_lt _ (by norm_num)),
      b64Val_b64Char _ (Nat.mod_lt _ (by norm_num)),
      b64Val_b64Char _ (Nat.mod_lt _ (by norm_num)),
      b64Val_b64Char _ (Nat.mod_lt _ (by norm_num))]
    simp only
    rw [ih (fun x hx => hb x (by simp [hx]))]
    simp only [Option.some.injEq, List.cons_append, List.nil_append,
      List.cons.injEq, and_true]
    refine ⟨by omega, by omega, by omega⟩

/-! # Claim theorems -/

/-- C1: `derivePrivateKey` is deterministic: on a fresh manager the key
is a function of the seed phrase and the fixed chain path only, hence
bit-identical on every call and across independently constructed
managers; a second (and any subsequent) call for the same chain returns
the cached value and leaves the manager unchanged — even under a
different underlying derivation function, so nothing is re-derived —
and after `clear()` the key is re-derived and equals the key obtained
before the clear. -/
theorem C1_derivePrivateKey_deterministic_cached_clear
    (hd hd2 : List Word → String → Str) (mnemonic : List Word) (c : Chain) :
    ((KeyManager.create mnemonic).derivePrivateKey hd c).1 =
        hd mnemonic ("m/" ++ DERIVATION_PATHS c)
    ∧ KeyManager.derivePrivateKey hd2
        ((KeyManager.create mnemonic).derivePrivateKey hd c).2 c =
        (((KeyManager.create mnemonic).derivePrivateKey hd c).1,
          ((KeyManager.create mnemonic).derivePrivateKey hd c).2)
    ∧ (KeyManager.derivePrivateKey hd
        (((KeyManager.create mnemonic).derivePrivateKey hd c).2).clear c).1 =
        ((KeyManager.create mnemonic).derivePrivateKey hd c).1 := by
  refine ⟨rfl, ?_, rfl⟩
  simp [KeyManager.derivePrivateKey, KeyManager.create, findKey]

/-- C10: the four EVM-family chains are assigned the identical
derivation path, and consequently `derivePrivateKey` returns the same
private key value for all four. -/
theorem C10_evm_chains_same_path_same_key
    (hd : List Word → String → Str) (mnemonic : List Word) :
    (DERIVATION_PATHS .polygon = DERIVATION_PATHS .ethereum
      ∧ DERIVATION_PATHS .bsc = DERIVATION_PATHS .ethereum
      ∧ DERIVATION_PATHS .arbitrum = DERIVATION_PATHS .ethereum)
    ∧ (((KeyManager.create mnemonic).derivePrivateKey hd .polygon).1 =
          ((KeyManager.create mnemonic).derivePrivateKey hd .ethereum).1
      ∧ ((KeyManager.create mnemonic).derivePrivateKey hd .bsc).1 =
          ((KeyManager.create mnemonic).derivePrivateKey hd .ethereum).1
      ∧ ((KeyManager.create mnemonic).derivePrivateKey hd .arbitrum).1 =
          ((KeyManager.create mnemonic).derivePrivateKey hd .ethereum).1) :=
  ⟨⟨rfl, rfl, rfl⟩, ⟨rfl, rfl, rfl⟩⟩

/-- C6: `getChain` on a chain id with no registered factory returns the
`Chain ... not implemented` error, invokes no factory, and hands the
registry back unchanged. -/
theorem C6_getChain_unregistered (reg : Registry) (chain : String)
    (privateKey : Str) (rpcUrl : Option String)
    (h : lookupFactory chain reg = none) :
    getChain reg chain privateKey rpcUrl =
      (.error ("Chain " ++ chain ++ " not implemented"), reg) := by
  unfold getChain
  rw [h]

/-- Witness for C6: the chain id solana is unregistered in the registry
built at module load, and `getChain` fails on it exactly as stated. -/
theorem C6_getChain_unregistered_witness :
    lookupFactory "solana" sampleEnv.registry = none
    ∧ getChain sampleEnv.registry "solana" [] none =
        (.error "Chain solana not implemented", sampleEnv.registry) :=
  ⟨rfl, C6_getChain_unregistered sampleEnv.registry "solana" [] none rfl⟩

/-- C9: for a private key of the form 0x followed by hexadecimal
digits, the orchestrator address bc1q ++ pk.slice(0, 38) (which embeds
the 0x prefix) never equals the adapter address
bc1q ++ pk.slice(2, 40): the list after bc1q starts with codes 48, 120
on one side and with two hexadecimal codes on the other, and 120 (the
letter x) is not a hexadecimal digit. -/
theorem C9_bitcoin_address_mismatch (env : Env) (w : ClawCashWallet)
    (rest : List Nat)
    (hpk : (KeyManager.derivePrivateKey env.hd w.keyManager .bitcoin).1 =
      48 :: 120 :: rest)
    (hhex : ∀ c ∈ rest, isHexCode c = true) :
    (ClawCashWallet.getBitcoinAddress env w).1 ≠
      BitcoinChain.deriveAddress (48 :: 120 :: rest) := by
  intro hcontra
  simp only [ClawCashWallet.getBitcoinAddress, BitcoinChain.deriveAddress,
    hpk] at hcontra
  have hdrop : (48 :: 120 :: rest).drop 2 = rest := rfl
  rw [hdrop] at hcontra
  simp only [List.cons_append, List.nil_append, List.cons.injEq,
    true_and] at hcontra
  cases rest with
  | nil => exact absurd hcontra (by decide)
  | cons c1 rest1 =>
    cases rest1 with
    | nil =>
      have hlen := congrArg List.length hcontra
      simp [List.length_take] at hlen
    | cons c2 rest2 =>
      have e1 : (48 :: 120 :: c1 :: c2 :: rest2).take 38 =
          48 :: 120 :: (c1 :: c2 :: rest2).take 36 := rfl
      have e2 : (c1 :: c2 :: rest2).take 38 = c1 :: c2 :: rest2.take 36 := rfl
      rw [e1, e2] at hcontra
      injection hcontra with h48 htail
      injection htail with h120 hrest
      have hc2 : isHexCode c2 = true := hhex c2 (by simp)
      rw [← h120] at hc2
      exact absurd hc2 (by decide)

/-- Witness for C9: a concrete environment whose derivation returns the
key 0x followed by 64 letters a; the two Bitcoin addresses disagree. -/
theorem C9_bitcoin_address_mismatch_witness :
    (∀ c ∈ List.replicate 64 97, isHexCode c = true)
    ∧ (ClawCashWallet.getBitcoinAddress sampleEnv
          { keyManager := KeyManager.create [] }).1 ≠
        BitcoinChain.deriveAddress (48 :: 120 :: List.replicate 64 97) :=
  ⟨by decide, C9_bitcoin_address_mismatch sampleEnv
    { keyManager := KeyManager.create [] } (List.replicate 64 97) rfl (by decide)⟩

/-- Unknown words poison the whole index lookup. -/
theorem wordIndices_eq_none (W : Wordlist) {w : Word} :
    ∀ {ws : List Word}, w ∈ ws → W.inv w = none → wordIndices W ws = none := by
  intro ws
  induction ws with
  | nil => intro h _; simp at h
  | cons x xs ih =>
    intro hmem hnone
    rw [wordIndices]
    rcases List.mem_cons.mp hmem with h | h
    · subst h
      rw [hnone]
    · rw [ih h hnone]
      cases W.inv x <;> rfl

/-- Counterexample to C3: the KeyManager constructor performs no
validation and cannot fail: the 13-word phrase below fails mnemonic
validation (wrong length, for any word list and checksum), yet
`KeyManager.create` succeeds on it and `derivePrivateKey` then operates
on the stored invalid phrase without any error. -/
theorem C3_keyManager_no_validation_counterexample :
    validateMnemonic sampleWordlist (fun _ => 0)
        (List.replicate 13 [97, 97, 97]) = false
    ∧ KeyManager.create (List.replicate 13 [97, 97, 97]) =
        { mnemonic := List.replicate 13 [97, 97, 97], derivedKeys := [] }
    ∧ ((KeyManager.create (List.replicate 13 [97, 97, 97])).derivePrivateKey
        (fun _ _ => [0]) .ethereum).1 = [0] :=
  ⟨by decide, rfl, rfl⟩

/-- C3 (amended): the single validation gate is the ClawCashWallet
constructor (and importWallet), not the KeyManager constructor: wallet
construction fails with Invalid mnemonic phrase for every phrase that
fails validateMnemonic, while `KeyManager.create` stores the phrase
unexamined and `derivePrivateKey` derives from whatever phrase is
stored without re-validating. -/
theorem C3_wallet_constructor_is_validation_gate (W : Wordlist)
    (cs : List Nat → Nat) (mnemonic : List Word)
    (hd : List Word → String → Str) (c : Chain)
    (hinvalid : validateMnemonic W cs mnemonic = false) :
    ClawCashWallet.create W cs mnemonic = .error "Invalid mnemonic phrase"
    ∧ importWallet W cs mnemonic = .error "Invalid mnemonic phrase"
    ∧ ((KeyManager.create mnemonic).derivePrivateKey hd c).1 =
        hd mnemonic ("m/" ++ DERIVATION_PATHS c) := by
  refine ⟨?_, ?_, rfl⟩ <;>
    simp [ClawCashWallet.create, importWallet, hinvalid]

/-- Witness for C3 (amended): a one-word phrase is invalid and wallet
construction fails on it with the stated error. -/
theorem C3_wallet_constructor_is_validation_gate_witness :
    validateMnemonic sampleWordlist (fun _ => 0) [[97]] = false
    ∧ ClawCashWallet.create sampleWordlist (fun _ => 0) [[97]] =
        .error "Invalid mnemonic phrase" :=
  ⟨by decide, (C3_wallet_constructor_is_validation_gate sampleWordlist
    (fun _ => 0) [[97]] (fun _ _ => []) .ethereum (by decide)).1⟩

/-- Counterexample to C2: with every backend call failing, the Bitcoin
adapter getBalance does not raise: it silently returns the zero
balance, and estimateFee silently returns the fixed default estimate. -/
theorem C2_bitcoin_swallows_backend_failure_counterexample :
    BitcoinChain.getBalance
        { addressStats := .error "backend unreachable",
          feeEstimates := .error "backend unreachable" } =
      .ok { amount := 0, formatted := "0", symbol := "BTC", decimals := 8 }
    ∧ BitcoinChain.estimateFee
        { addressStats := .error "backend unreachable",
          feeEstimates := .error "backend unreachable" }
        { chain := .bitcoin, fromAddr := [], toAddr := [],
          amount := "0.01", token := "BTC" } =
      .ok { gasFee := 2500, gasPrice := 10, gasLimit := 250,
            formatted := "0.00002500" } :=
  ⟨rfl, rfl⟩

/-- C2 (amended): the EVM adapter operations propagate backend failures
unchanged (getBalance, estimateFee, sendTransaction, and the
orchestrator getBalance wiring on top of them), and the Bitcoin
sendTransaction always raises; but the Bitcoin getBalance maps every
backend failure to a silent zero balance and the Bitcoin estimateFee
maps every failure to the fixed default estimate. -/
theorem C2_adapter_error_policy (name : String) (env : EvmBackend)
    (e : String) (fees : Except String (Nat → Option Nat))
    (stats : Except String BtcChainStats) (p : PaymentParams)
    (envW : Env) (mnemonic : List Word) :
    BitcoinChain.getBalance { addressStats := .error e, feeEstimates := fees } =
        .ok { amount := 0, formatted := "0", symbol := "BTC", decimals := 8 }
    ∧ BitcoinChain.estimateFee
        { addressStats := stats, feeEstimates := .error e } p =
        .ok { gasFee := 2500, gasPrice := 10, gasLimit := 250,
              formatted := "0.00002500" }
    ∧ BitcoinChain.sendTransaction p =
        .error "Bitcoin transactions require bitcoinjs-lib. Install with: npm install bitcoinjs-lib"
    ∧ EthereumChain.getBalance name { env with nativeBalance := .error e }
        none = .error e
    ∧ EthereumChain.estimateFee { env with feeData := .error e }
        { p with token := "ETH" } = .error e
    ∧ EthereumChain.sendTransaction { env with sendNative := .error e }
        { p with token := "ETH" } = .error e
    ∧ (ClawCashWallet.getBalance
        { envW with evmEnv := fun s =>
            { envW.evmEnv s with network := .ok (), nativeBalance := .error e } }
        { keyManager := KeyManager.create mnemonic } .ethereum none).1 =
        .error e :=
  ⟨rfl, rfl, rfl, rfl, rfl, rfl, rfl⟩

/-- C5: getAddresses never raises — for every environment (whatever
every connect() returns, including failure on all chains) and every
wallet state it returns ok — and on a freshly constructed wallet the
returned mapping contains an address for every one of the five chains:
the EVM address of the shared EVM key four times, and the orchestrator
Bitcoin placeholder address. -/
theorem C5_getAddresses_never_raises (env : Env) (w : ClawCashWallet)
    (mnemonic : List Word) :
    (∃ addrs w2, ClawCashWallet.getAddresses env w = .ok (addrs, w2))
    ∧ (let k := env.hd mnemonic "m/44\x27/60\x27/0\x27/0/0"
       let kb := env.hd mnemonic "m/44\x27/0\x27/0\x27/0/0"
       ClawCashWallet.getAddresses env
          { keyManager := KeyManager.create mnemonic } =
        .ok ({ ethereum := env.addrOf k, polygon := env.addrOf k,
               bsc := env.addrOf k, arbitrum := env.addrOf k,
               bitcoin := [98, 99, 49, 113] ++ kb.take 38 },
             { keyManager := { mnemonic := mnemonic,
                               derivedKeys := [(.bitcoin, kb), (.arbitrum, k),
                                 (.bsc, k), (.polygon, k), (.ethereum, k)] } })) :=
  ⟨⟨_, _, rfl⟩, rfl⟩

/-- C8: BitcoinChain.signMessage is exactly the base64 encoding of the
private key concatenated with the message, so base64-decoding any
signature it produces yields the full private key followed by the
message: the signature discloses the private key. -/
theorem C8_signMessage_discloses_key (privateKey message : Str)
    (h : ∀ b ∈ privateKey ++ message, b < 256) :
    BitcoinChain.signMessage privateKey message =
        base64Encode (privateKey ++ message)
    ∧ base64Decode (BitcoinChain.signMessage privateKey message) =
        some (privateKey ++ message)
    ∧ (base64Decode (BitcoinChain.signMessage privateKey message)).map
        (fun bs => bs.take privateKey.length) = some privateKey := by
  refine ⟨rfl, ?_, ?_⟩
  · exact base64Decode_base64Encode _ h
  · rw [BitcoinChain.signMessage, base64Decode_base64Encode _ h]
    simp [List.take_left]

/-- Witness for C8: decoding the signature of a concrete key and
message recovers the key. -/
theorem C8_signMessage_discloses_key_witness :
    (∀ b ∈ ([1, 2] ++ [3] : List Nat), b < 256)
    ∧ (base64Decode (BitcoinChain.signMessage [1, 2] [3])).map
        (fun bs => bs.take 2) = some [1, 2] :=
  ⟨by decide, (C8_signMessage_discloses_key [1, 2] [3] (by decide)).2.2⟩

/-- C4: the entropy/phrase encoding is bidirectional and lossless for
every well-formed word list: decoding the phrase encoded from any
16-byte entropy returns exactly that entropy, and every phrase the
decoder accepts is exactly the encoding of the entropy it returns
(so encoding after decoding reproduces the phrase). -/
theorem C4_mnemonic_entropy_roundtrip (W : Wordlist) (hW : W.Good)
    (cs : List Nat → Nat) (entropy : List Nat) (phrase : List Word) :
    (entropy.length = 16 → (∀ b ∈ entropy, b < 256) →
      mnemonicToEntropy W cs (entropyToMnemonic W cs entropy) = .ok entropy)
    ∧ (mnemonicToEntropy W cs phrase = .ok entropy →
      entropyToMnemonic W cs entropy = phrase) :=
  ⟨fun h1 h2 => mnemonicToEntropy_entropyToMnemonic W hW cs h1 h2,
    fun h => entropyToMnemonic_mnemonicToEntropy W hW cs h⟩

/-- Witness for C4: the all-zero 16-byte entropy round-trips through
the sample word list. -/
theorem C4_mnemonic_entropy_roundtrip_witness :
    (List.replicate 16 (0 : Nat)).length = 16
    ∧ mnemonicToEntropy sampleWordlist (fun _ => 0)
        (entropyToMnemonic sampleWordlist (fun _ => 0)
          (List.replicate 16 0)) = .ok (List.replicate 16 0) :=
  ⟨rfl, (C4_mnemonic_entropy_roundtrip sampleWordlist sampleWordlist_good
    (fun _ => 0) (List.replicate 16 0) []).1 rfl (by decide)⟩

/-- C7: validateMnemonic is total by construction — the decoder result
is pattern-matched and every failure becomes false, so no input makes
it fail; it returns false whenever some word of the phrase is outside
the word list, false on a checksum mismatch (a phrase encoded with
different checksum bits), and true on every phrase produced by
generateMnemonic from 16-byte entropy. -/
theorem C7_validateMnemonic_total_correct (W : Wordlist) (hW : W.Good)
    (cs csAlt : List Nat → Nat) (phrase : List Word) (w : Word)
    (entropy : List Nat) :
    (w ∈ phrase → W.inv w = none → validateMnemonic W cs phrase = false)
    ∧ (entropy.length = 16 → (∀ b ∈ entropy, b < 256) →
        csAlt entropy % 16 ≠ cs entropy % 16 →
        validateMnemonic W cs (entropyToMnemonic W csAlt entropy) = false)
    ∧ (entropy.length = 16 → (∀ b ∈ entropy, b < 256) →
        validateMnemonic W cs (generateMnemonic W cs entropy) = true) := by
  refine ⟨?_, ?_, ?_⟩
  · intro hmem hnone
    rw [validateMnemonic, mnemonicToEntropy]
    by_cases hlen : phrase.length = 12
    · rw [if_pos hlen, wordIndices_eq_none W hmem hnone]
    · rw [if_neg hlen]
  · intro h1 h2 hne
    rw [validateMnemonic,
      mnemonicToEntropy_entropyToMnemonic_mixed W hW csAlt cs h1 h2,
      if_neg (Ne.symm hne)]
  · intro h1 h2
    rw [validateMnemonic, generateMnemonic,
      mnemonicToEntropy_entropyToMnemonic W hW cs h1 h2]

/-- Witness for C7: a phrase containing an unknown word validates
false, a phrase encoded with mutated checksum bits validates false,
and a generated phrase validates true, all at concrete inputs. -/
theorem C7_validateMnemonic_total_correct_witness :
    ([120] ∈ [[120]] ∧ sampleWordlist.inv [120] = none
      ∧ validateMnemonic sampleWordlist (fun _ => 0) [[120]] = false)
    ∧ validateMnemonic sampleWordlist (fun _ => 0)
        (entropyToMnemonic sampleWordlist (fun _ => 1)
          (List.replicate 16 0)) = false
    ∧ validateMnemonic sampleWordlist (fun _ => 0)
        (generateMnemonic sampleWordlist (fun _ => 0)
          (List.replicate 16 0)) = true := by
  have h := C7_validateMnemonic_total_correct sampleWordlist
    sampleWordlist_good (fun _ => 0) (fun _ => 1) [[120]] [120]
    (List.replicate 16 0)
  exact ⟨⟨by decide, by decide, h.1 (by decide) (by decide)⟩,
    h.2.1 rfl (by decide) (by decide),
    h.2.2 rfl (by decide)⟩

end ClawCash
